import Mathlib

/-!
Verification development for the DOSBox-core libretro glue: the disk-control
callback surface (src/libretro/src/disk_control.cpp), the thread-switch
contract (src/libretro/src/emu_thread.h) and the core-options lookup
(src/libretro/CoreOptions.h), shallowly embedded in Lean.

The disk-control file keeps three pieces of global mutable state
(`state::images`, `state::current_index`, `state::is_ejected`); we thread them
through every operation as an explicit `DCState`.  Calls into DOSBox proper
(DriveManager, MSCDEX, the filesystem) are external collaborators: their
observable effects are recorded as a trace of `DriveAction` values and their
results are supplied by a `MountEnv` record of oracles.  A C++ exception that
would escape a libretro callback is modelled as `Option.none`.
-/

namespace DosboxCore

/-- A `std::filesystem::path`, reduced to the two observations the excerpted
code makes of it: `filename()` and `extension()` (the extension as returned by
`std::filesystem::path::extension`, dot included). -/
structure FsPath where
  filename : String
  extension : String
deriving DecidableEq, Repr

/-- The `lower_case` helper from util.h (not part of the excerpt): ASCII
lower-casing of a string, as applied to file extensions before comparison. -/
def lower_case (s : String) : String :=
  ⟨s.data.map Char.toLower⟩

/-- The mutable globals of namespace `state` in disk_control.cpp: the image
registry, the current index and the ejected flag. -/
structure DCState where
  images : List FsPath
  current_index : Nat
  is_ejected : Bool
deriving DecidableEq, Repr

/-- `state::images` is empty, `current_index` is 0, `is_ejected` is false:
the initial values of the globals. -/
def DCState.init : DCState :=
  ⟨[], 0, false⟩

/-- `cb::get_num_images`: the size of `state::images`. -/
def get_num_images (s : DCState) : Nat :=
  s.images.length

/-- `cb::get_eject_state`. -/
def get_eject_state (s : DCState) : Bool :=
  s.is_ejected

/-- `cb::get_image_index`. -/
def get_image_index (s : DCState) : Nat :=
  s.current_index

/-- `cb::set_image_index`: rejects an out-of-range index with `false`,
otherwise stores the index and returns `true`. -/
def set_image_index (index : Nat) (s : DCState) : Bool × DCState :=
  if index ≥ get_num_images s then
    (false, s)
  else
    (true, { s with current_index := index })

/-- `cb::add_image_index`: appends a default-constructed path to
`state::images` and returns `true`. -/
def add_image_index (s : DCState) : Bool × DCState :=
  (true, { s with images := s.images ++ [⟨"", ""⟩] })

/-- `cb::replace_image_index`: with an invalid index, logs and returns
`false`.  With a null `info` (modelled as `none`), erases the entry at
`index`; if the current index then falls at or past the new count while the
registry is non-empty, it is clamped to count - 1 via `set_image_index`.
With a non-null `info`, the entry at `index` is overwritten by the new
path. -/
def replace_image_index (index : Nat) (info : Option FsPath) (s : DCState) :
    Bool × DCState :=
  if index ≥ get_num_images s then
    (false, s)
  else
    match info with
    | none =>
      let s2 : DCState := { s with images := s.images.eraseIdx index }
      if get_image_index s2 ≥ get_num_images s2 ∧ get_num_images s2 > 0 then
        (true, (set_image_index (get_num_images s2 - 1) s2).2)
      else
        (true, s2)
    | some p =>
      (true, { s with images := s.images.set index p })

/-- Possible outcomes of `cb::get_image_label`. -/
inductive LabelResult where
  /-- The guard fired: the callback returned `false`. -/
  | fail : LabelResult
  /-- The callback wrote the filename of the image into the buffer and
  returned `true`. -/
  | ok : String → LabelResult
  /-- `state::images.at(index)` raised `std::out_of_range`, which escapes the
  extern "C" callback boundary. -/
  | fatal : LabelResult
deriving DecidableEq, Repr

/-- `cb::get_image_label`: guarded by `index > get_num_images()` (strict
comparison in the source), then reads `state::images.at(index)` and copies
its filename into the caller buffer. -/
def get_image_label (index : Nat) (s : DCState) : LabelResult :=
  if index > get_num_images s then
    .fail
  else
    match s.images.get? index with
    | some p => .ok p.filename
    | none => .fatal

/-- The observable effects the mount/unmount code requests from DOSBox proper
(DriveManager, the DOS memory table, the drive array).  A drive letter `c` is
recorded as its index `c - 'A'`. -/
inductive DriveAction where
  /-- `DriveManager::AppendDisk(letter_index, drive)`. -/
  | appendDisk : Nat → DriveAction
  /-- `DriveManager::InitializeDrive(letter_index)`. -/
  | initDrive : Nat → DriveAction
  /-- `mem_writeb(... + letter_index * 9, media_id)`: the media byte. -/
  | writeMediaByte : Nat → Nat → DriveAction
  /-- `dos.dta(dos.tables.tempdta)`. -/
  | setDta : DriveAction
  /-- `MSCDEX_SetCDInterface(CDROM_USE_SDL, -1)`. -/
  | setCdInterface : DriveAction
  /-- The `for (auto* drive : Drives) ... drive->EmptyCache()` loop. -/
  | emptyCaches : DriveAction
  /-- `DriveManager::CycleDisks(letter_index, true)`. -/
  | cycleDisks : Nat → DriveAction
  /-- `DriveManager::UnmountDrive(letter_index)`. -/
  | unmountDrive : Nat → DriveAction
  /-- `Drives[letter_index] = nullptr`. -/
  | clearDrive : Nat → DriveAction
deriving DecidableEq, Repr

/-- Oracles for the external collaborators consulted while mounting: the
secure-mode flag of `control`, `std::filesystem::file_size` (`none` models the
exception path), whether the `fatDrive` constructor reports
`created_successfully`, the error code produced by the `isoDrive` constructor,
and which slots of the `Drives` array are occupied. -/
structure MountEnv where
  secure_mode : Bool
  file_size_of : FsPath → Option Nat
  fat_created_ok : FsPath → Bool
  iso_error : FsPath → Int
  drive_present : Nat → Bool

/-- Drive letter to index, as computed by `drive_letter - 'A'` in the
source. -/
def letterIndex (drive_letter : Char) : Nat :=
  drive_letter.toNat - 65

/-- `mount_floppy_image`: fails when the image size cannot be read, exceeds
the floppy limit of 2880 KiB, or the `fatDrive` is not created successfully;
otherwise appends the disk at the given letter, sets media byte 0xF0 and the
temporary dta. -/
def mount_floppy_image (env : MountEnv) (drive_letter : Char) (path : FsPath) :
    Bool × List DriveAction :=
  match env.file_size_of path with
  | none => (false, [])
  | some size =>
    if size > 2880 * 1024 then
      (false, [])
    else if !env.fat_created_ok path then
      (false, [])
    else
      (true,
        [.appendDisk (letterIndex drive_letter), .initDrive (letterIndex drive_letter),
          .writeMediaByte (letterIndex drive_letter) 0xF0, .setDta])

/-- `mount_cd_image`: selects the SDL CD interface, then fails with a logged
message on every non-zero `isoDrive` error code; on error code 0 it appends
the disk at the given letter and sets media byte 0xF8. -/
def mount_cd_image (env : MountEnv) (drive_letter : Char) (path : FsPath) :
    Bool × List DriveAction :=
  if env.iso_error path = 0 then
    (true,
      [.setCdInterface, .appendDisk (letterIndex drive_letter),
        .initDrive (letterIndex drive_letter),
        .writeMediaByte (letterIndex drive_letter) 0xF8])
  else
    (false, [.setCdInterface])

/-- The success tail of `disk_control::mount`: empty every drive cache, cycle
the disks of the mounted letter, and, when the registry is empty, append an
entry via `cb::add_image_index` and store the image path in slot 0. -/
def mount_tail (drive_letter : Char) (image : FsPath) (s : DCState) :
    DCState × List DriveAction :=
  let acts : List DriveAction := [.emptyCaches, .cycleDisks (letterIndex drive_letter)]
  if get_num_images s = 0 then
    let s2 := (add_image_index s).2
    ({ s2 with images := s2.images.set 0 image }, acts)
  else
    (s, acts)

/-- `disk_control::mount`: refuses in secure mode; lower-cases the extension
and dispatches ".img" to a floppy mount as drive letter A and ".iso"/".cue"
to a cdrom mount as drive letter D, failing on any other extension; on a
successful mount runs the common tail. -/
def mount (env : MountEnv) (image : FsPath) (s : DCState) :
    Bool × DCState × List DriveAction :=
  if env.secure_mode then
    (false, s, [])
  else
    let ext := lower_case image.extension
    if ext = ".img" then
      let r := mount_floppy_image env 'A' image
      if r.1 then
        let t := mount_tail 'A' image s
        (true, t.1, r.2 ++ t.2)
      else
        (false, s, r.2)
    else if ext = ".iso" ∨ ext = ".cue" then
      let r := mount_cd_image env 'D' image
      if r.1 then
        let t := mount_tail 'D' image s
        (true, t.1, r.2 ++ t.2)
      else
        (false, s, r.2)
    else
      (false, s, [])

/-- The file-static `unmount`: fails when the registry is empty or the
extension is unsupported; otherwise unmounts the drive of the letter derived
from the extension (when present), clears its slot and cycles its disks.  It
never touches the registry state. -/
def unmount (env : MountEnv) (path : FsPath) (s : DCState) :
    Bool × List DriveAction :=
  if get_num_images s = 0 then
    (false, [])
  else
    let ext := lower_case path.extension
    if ext = ".img" then
      (true, unmount_tail env 'A')
    else if ext = ".iso" ∨ ext = ".cue" then
      (true, unmount_tail env 'D')
    else
      (false, [])
where
  /-- The per-letter tail of `unmount`. -/
  unmount_tail (env : MountEnv) (drive_letter : Char) : List DriveAction :=
    (if env.drive_present (letterIndex drive_letter) then
      [DriveAction.unmountDrive (letterIndex drive_letter)]
    else
      []) ++ [.clearDrive (letterIndex drive_letter), .cycleDisks (letterIndex drive_letter)]

/-- `cb::set_eject_state`: stores the requested ejected flag first, returns
`true` on an empty registry, and otherwise unmounts (on eject) or mounts (on
insert) the image at the current index.  `state::images.at(current_index)`
raising `std::out_of_range` is modelled as `none`. -/
def set_eject_state (env : MountEnv) (ejected : Bool) (s : DCState) :
    Option (Bool × DCState × List DriveAction) :=
  let s1 : DCState := { s with is_ejected := ejected }
  if get_num_images s1 = 0 then
    some (true, s1, [])
  else
    match s1.images.get? (get_image_index s1) with
    | none => none
    | some img =>
      if ejected then
        let r := unmount env img s1
        some (r.1, s1, r.2)
      else
        let r := mount env img s1
        some r

/-! ## Operation sequences over the disk-control state

Used to state the current-index invariant: every callback is folded over the
state, with `none` propagating a callback that would have crashed. -/

/-- One invocation of a disk-control operation, carrying the external oracles
it consults. -/
inductive DCOp where
  /-- `cb::add_image_index()`. -/
  | add : DCOp
  /-- `cb::set_image_index(i)`. -/
  | setIndex : Nat → DCOp
  /-- `cb::replace_image_index(i, info)`. -/
  | replace : Nat → Option FsPath → DCOp
  /-- `cb::set_eject_state(e)`. -/
  | eject : MountEnv → Bool → DCOp
  /-- `disk_control::mount(p)`. -/
  | mountOp : MountEnv → FsPath → DCOp

/-- Run one operation, keeping only the state (return values and drive
actions are dropped). -/
def stepOp : DCOp → DCState → Option DCState
  | .add, s => some (add_image_index s).2
  | .setIndex i, s => some (set_image_index i s).2
  | .replace i info, s => some (replace_image_index i info s).2
  | .eject env e, s => (set_eject_state env e s).map (fun r => r.2.1)
  | .mountOp env p, s => some (mount env p s).2.1

/-- Run a sequence of operations from a given state. -/
def runOps : List DCOp → DCState → Option DCState
  | [], s => some s
  | op :: rest, s =>
    match stepOp op s with
    | none => none
    | some s2 => runOps rest s2

/-- The current-index invariant of the registry: on a non-empty registry the
current index is in range, and on an empty registry it is 0. -/
def DCInv (s : DCState) : Prop :=
  (0 < get_num_images s → get_image_index s < get_num_images s) ∧
    (get_num_images s = 0 → get_image_index s = 0)

/-! ## The thread-switch contract (emu_thread.h)

Only the header is part of the excerpt; the coordinator itself is modelled
from the spec (sections 3 to 5): a two-sided ownership flag, a runtime wait
strategy that never affects ownership transfer, and a single-shot
cancellation token that turns the next emulation-side resumption of
`switchThread` into an `EmuThreadCanceled` raise. -/

/-- The exception type of emu_thread.h, thrown for canceling the emulation
thread; it carries no data. -/
inductive EmuThreadCanceled where
  /-- The one (data-free) value of the exception. -/
  | mk : EmuThreadCanceled
deriving DecidableEq, Repr

/-- Modelled from the spec: the run-state enumeration of which logical side
currently owns execution. -/
inductive Side where
  /-- The host (main/frontend) thread owns execution. -/
  | host : Side
  /-- The emulation thread owns execution. -/
  | emu : Side
deriving DecidableEq, Repr

/-- The opposite side. -/
def Side.other : Side → Side
  | .host => .emu
  | .emu => .host

/-- Modelled from the spec: the two interchangeable wait strategies behind
the handoff state machine. -/
inductive WaitStrategy where
  /-- Busy-poll a shared flag (spinlock). -/
  | spin : WaitStrategy
  /-- Block on a mutex-guarded condition. -/
  | block : WaitStrategy
deriving DecidableEq, Repr

/-- Modelled from the spec: the shared state of the Switch Coordinator — the
run-state owner, the chosen wait strategy and the cancellation token.  The
`switchThread` implementation itself is not part of the excerpted sources. -/
structure SwitchCoordinator where
  owner : Side
  strategy : WaitStrategy
  canceled : Bool
deriving DecidableEq, Repr

/-- Modelled from the spec: one completed handoff — the caller
yields and ownership flips to the other side — and the caller is always the
current owner, since the non-owner is blocked inside its own pending call.
The wait strategy only decides
how the waiter blocks, never who runs next. -/
def handoff (st : SwitchCoordinator) : SwitchCoordinator :=
  { st with owner := st.owner.other }

/-- `useSpinlockThreadSync`: selects the wait strategy for subsequent
handoffs. -/
def useSpinlockThreadSync (use_spinlock : Bool) (st : SwitchCoordinator) :
    SwitchCoordinator :=
  { st with strategy := if use_spinlock then .spin else .block }

/-- An event visible to the Switch Coordinator: a completed `switchThread`
handoff or a wait-strategy toggle. -/
inductive CoordEvent where
  /-- A completed `switchThread()` call by the current owner. -/
  | switch : CoordEvent
  /-- A `useSpinlockThreadSync(b)` call from either thread. -/
  | setSpinlock : Bool → CoordEvent

/-- Fold a sequence of coordinator events over the shared state. -/
def applyEvents : List CoordEvent → SwitchCoordinator → SwitchCoordinator
  | [], st => st
  | .switch :: rest, st => applyEvents rest (handoff st)
  | .setSpinlock b :: rest, st => applyEvents rest (useSpinlockThreadSync b st)

/-- The number of handoffs in an event sequence. -/
def numSwitches : List CoordEvent → Nat
  | [] => 0
  | .switch :: rest => numSwitches rest + 1
  | .setSpinlock _ :: rest => numSwitches rest

/-- Modelled from the spec: one full round of the emulation loop as seen from
the emulation side of `switchThread`: yield to the host, let the host
optionally set the cancellation token before it hands back, and check the
token at the moment of being woken — raising `EmuThreadCanceled` instead of
returning when it is set. -/
def switchRound (host_sets_cancel : Bool) (st : SwitchCoordinator) :
    Except EmuThreadCanceled SwitchCoordinator :=
  let after_yield := handoff st
  let after_host :=
    if host_sets_cancel then { after_yield with canceled := true } else after_yield
  let woken := handoff after_host
  if woken.canceled then .error .mk else .ok woken

/-- Modelled from the spec: the emulation run loop — one `switchRound` per
produced frame, the raised cancellation propagating unmodified through the
loop (no intermediate handler catches it). -/
def emuLoop : List Bool → SwitchCoordinator → Except EmuThreadCanceled SwitchCoordinator
  | [], st => .ok st
  | b :: rest, st =>
    match switchRound b st with
    | .error e => .error e
    | .ok st2 => emuLoop rest st2

/-- How the emulation thread terminates. -/
inductive ThreadExit where
  /-- The modelled schedule ended with the loop still running normally. -/
  | stillRunning : ThreadExit
  /-- The entry point caught `EmuThreadCanceled` (its only catch) and let the
  thread terminate cleanly. -/
  | cleanExit : ThreadExit
deriving DecidableEq, Repr

/-- Modelled from the spec: the emulation-thread entry point, the single
place that catches `EmuThreadCanceled` — exactly this signal and no other —
and exits cleanly. -/
def emuThreadEntry (schedule : List Bool) (st : SwitchCoordinator) : ThreadExit :=
  match emuLoop schedule st with
  | .error _ => .cleanExit
  | .ok _ => .stillRunning

/-! ## CoreOptions lookup (CoreOptions.h) -/

/-- A core-option definition, reduced to the observations made through
`CoreOptions::option`: the stored definition for a key (its full key and
label). -/
structure CoreOptionDefinition where
  key : String
  label : String
deriving DecidableEq, Repr

/-- The registry part of `CoreOptions` relevant to `option`: the
`options_map_` from full option key to the stored definition. -/
structure CoreOptions where
  options_map_ : List (String × CoreOptionDefinition)
deriving DecidableEq, Repr

/-- `CoreOptions::option` (both overloads): `options_map_.find(key)`, the
mapped definition when the iterator is not `end()`, null otherwise.  A null
pointer is modelled as `none`. -/
def CoreOptions.option (co : CoreOptions) (key : String) :
    Option CoreOptionDefinition :=
  co.options_map_.lookup key

/-- The full method call: the lookup result, paired with the state of the
`CoreOptions` object after the call (the method only calls `find`). -/
def CoreOptions.optionCall (co : CoreOptions) (key : String) :
    Option CoreOptionDefinition × CoreOptions :=
  (co.option key, co)

/-! ## Concrete fixtures used by witnesses and counterexamples -/

/-- A floppy image path. -/
def imgA : FsPath :=
  ⟨"boot.img", ".img"⟩

/-- An image path of an unsupported type. -/
def binB : FsPath :=
  ⟨"data.bin", ".bin"⟩

/-- External oracles with secure mode off and every collaborator
succeeding. -/
def envPlain : MountEnv :=
  ⟨false, fun _ => some 1024, fun _ => true, fun _ => 0, fun _ => true⟩

/-- External oracles with secure mode on. -/
def envSecure : MountEnv :=
  ⟨true, fun _ => some 1024, fun _ => true, fun _ => 0, fun _ => true⟩

/-! ## Theorems -/

/-- C3: an index at or past the image count is rejected by `set_image_index`
with `false` and no state change; an in-range index is stored as the current
index with result `true`, the image list untouched. -/
theorem set_image_index_spec (i : Nat) (s : DCState) :
    (i ≥ get_num_images s → set_image_index i s = (false, s)) ∧
    (i < get_num_images s →
      set_image_index i s = (true, { s with current_index := i })) := by
  refine ⟨fun h => ?_, fun h => ?_⟩
  · simp [set_image_index, h]
  · rw [set_image_index, if_neg (by omega)]

/-- Witness for C3: the spec scenario — index 5 on a registry of 2 images is
rejected and the registry keeps its state. -/
theorem set_image_index_spec_witness :
    5 ≥ get_num_images ⟨[imgA, binB], 0, false⟩ ∧
    set_image_index 5 ⟨[imgA, binB], 0, false⟩ = (false, ⟨[imgA, binB], 0, false⟩) :=
  ⟨by decide, (set_image_index_spec 5 ⟨[imgA, binB], 0, false⟩).1 (by decide)⟩

/-- C4: `replace_image_index` with no replacement rejects an out-of-range
index with `false` and no change; on a valid index it erases the entry,
returns `true`, keeps the ejected flag, and clamps the current index to the
new count minus one exactly when it fell at or past the new count while the
registry stayed non-empty. -/
theorem replace_image_index_remove_spec (i : Nat) (s : DCState) :
    (i ≥ get_num_images s → replace_image_index i none s = (false, s)) ∧
    (i < get_num_images s →
      (replace_image_index i none s).1 = true ∧
      (replace_image_index i none s).2.images = s.images.eraseIdx i ∧
      (replace_image_index i none s).2.is_ejected = s.is_ejected ∧
      (replace_image_index i none s).2.current_index =
        (if get_num_images s - 1 ≤ get_image_index s ∧ 0 < get_num_images s - 1 then
          get_num_images s - 2
        else
          get_image_index s)) := by
  refine ⟨fun h => ?_, fun h => ?_⟩
  · simp [replace_image_index, h]
  · have hlen : (s.images.eraseIdx i).length = s.images.length - 1 := by
      rw [List.length_eraseIdx, if_pos (show i < s.images.length from h)]
    rw [replace_image_index, if_neg (by omega)]
    by_cases hc :
        get_image_index { s with images := s.images.eraseIdx i } ≥
            get_num_images { s with images := s.images.eraseIdx i } ∧
          get_num_images { s with images := s.images.eraseIdx i } > 0
    · rw [if_pos hc]
      simp only [get_num_images, get_image_index] at hc
      rw [set_image_index, if_neg (by simp only [get_num_images]; omega)]
      refine ⟨rfl, rfl, rfl, ?_⟩
      show get_num_images { s with images := s.images.eraseIdx i } - 1 = _
      simp only [get_num_images, get_image_index]
      rw [if_pos (by omega)]
      omega
    · rw [if_neg hc]
      simp only [get_num_images, get_image_index] at hc
      refine ⟨rfl, rfl, rfl, ?_⟩
      show s.current_index = _
      simp only [get_num_images, get_image_index]
      rw [if_neg (by omega)]

/-- Witness for C4: the spec scenario — removing index 0 from a one-image
registry yields `true`, an empty registry, and current index still 0. -/
theorem replace_image_index_remove_spec_witness :
    (replace_image_index 0 none ⟨[imgA], 0, true⟩).1 = true ∧
    (replace_image_index 0 none ⟨[imgA], 0, true⟩).2.images = [imgA].eraseIdx 0 ∧
    (replace_image_index 0 none ⟨[imgA], 0, true⟩).2.is_ejected =
      (⟨[imgA], 0, true⟩ : DCState).is_ejected ∧
    (replace_image_index 0 none ⟨[imgA], 0, true⟩).2.current_index =
      (if get_num_images ⟨[imgA], 0, true⟩ - 1 ≤ get_image_index ⟨[imgA], 0, true⟩ ∧
          0 < get_num_images ⟨[imgA], 0, true⟩ - 1 then
        get_num_images ⟨[imgA], 0, true⟩ - 2
      else
        get_image_index ⟨[imgA], 0, true⟩) :=
  (replace_image_index_remove_spec 0 ⟨[imgA], 0, true⟩).2 (by decide)

/-- C5: with an index equal to the image count, the guard of
`get_image_label` (written `index > get_num_images()` in the source, not
`>=`) does not fire, and `state::images.at(index)` raises
`std::out_of_range`, escaping the callback — the model evaluates to
`LabelResult.fatal`, not to the `false` return the spec promises for every
out-of-range index. -/
theorem get_image_label_at_count_fatal :
    get_image_label 2 ⟨[imgA, binB], 0, false⟩ = .fatal := by
  decide

/-- Helper: `disk_control::mount` either leaves the registry state untouched,
or succeeds on an empty registry and records the mounted image as its single
entry. -/
theorem mount_state_cases (env : MountEnv) (p : FsPath) (s : DCState) :
    (mount env p s).2.1 = s ∨
      ((mount env p s).1 = true ∧ get_num_images s = 0 ∧
        (mount env p s).2.1 = { s with images := [p] }) := by
  simp only [mount]
  split
  · exact .inl rfl
  · split
    · split
      · rename_i hf
        rw [mount_tail]
        split
        · rename_i h0
          refine .inr ⟨rfl, h0, ?_⟩
          simp only [get_num_images] at h0
          simp [add_image_index, List.length_eq_zero.mp h0]
        · exact .inl rfl
      · exact .inl rfl
    · split
      · split
        · rename_i hf
          rw [mount_tail]
          split
          · rename_i h0
            refine .inr ⟨rfl, h0, ?_⟩
            simp only [get_num_images] at h0
            simp [add_image_index, List.length_eq_zero.mp h0]
          · exact .inl rfl
        · exact .inl rfl
      · exact .inl rfl

/-- Helper: a failed `disk_control::mount` leaves the registry state
untouched. -/
theorem mount_fail_state (env : MountEnv) (p : FsPath) (s : DCState)
    (h : (mount env p s).1 = false) : (mount env p s).2.1 = s := by
  rcases mount_state_cases env p s with h1 | h1
  · exact h1
  · rw [h1.1] at h
    cases h

/-- C6 counterexample: ejecting over a registry whose current image has an
unsupported extension makes the unmount fail, so `set_eject_state` returns
`false` — yet the ejected flag, written before the check, has changed from
`false` to `true`. -/
theorem set_eject_state_failure_flips_flag_cex :
    set_eject_state envPlain true ⟨[binB], 0, false⟩ =
      some (false, ⟨[binB], 0, true⟩, []) := by
  decide

/-- C6 as amended: when `set_eject_state` returns `false`, the image list and
the current index are unchanged, but the ejected flag has been set to the
requested value (the source stores it before attempting the mount or
unmount). -/
theorem set_eject_state_failure_spec (env : MountEnv) (e : Bool) (s s2 : DCState)
    (acts : List DriveAction)
    (h : set_eject_state env e s = some (false, s2, acts)) :
    s2.images = s.images ∧ s2.current_index = s.current_index ∧
      s2.is_ejected = e := by
  rw [set_eject_state] at h
  split at h
  · rw [Option.some_inj, Prod.mk.injEq] at h
    cases h.1
  · split at h
    · cases h
    · split at h
      · rw [Option.some_inj, Prod.mk.injEq, Prod.mk.injEq] at h
        rw [← h.2.1]
        exact ⟨rfl, rfl, rfl⟩
      · rw [Option.some_inj] at h
        have hb : (mount env _ _).1 = false := congrArg (fun r => r.1) h
        have h2 : (mount env _ _).2.1 = s2 := congrArg (fun r => r.2.1) h
        rw [mount_fail_state env _ _ hb] at h2
        rw [← h2]
        exact ⟨rfl, rfl, rfl⟩

/-- Witness for C6 (amended): instantiated at the counterexample input. -/
theorem set_eject_state_failure_spec_witness :
    (⟨[binB], 0, true⟩ : DCState).images = (⟨[binB], 0, false⟩ : DCState).images ∧
    (⟨[binB], 0, true⟩ : DCState).current_index =
      (⟨[binB], 0, false⟩ : DCState).current_index ∧
    (⟨[binB], 0, true⟩ : DCState).is_ejected = true :=
  set_eject_state_failure_spec envPlain true ⟨[binB], 0, false⟩ ⟨[binB], 0, true⟩ []
    (by decide)

/-- C7 counterexample: with secure mode active, `unmount` still succeeds —
it returns `true` and performs the unmount actions — because only
`disk_control::mount` consults `control->SecureMode()`. -/
theorem unmount_in_secure_mode_cex :
    envSecure.secure_mode = true ∧
    unmount envSecure imgA ⟨[imgA], 0, true⟩ =
      (true, [.unmountDrive 0, .clearDrive 0, .cycleDisks 0]) := by
  decide

/-- C7 as amended: in secure mode `disk_control::mount` declines — `false`,
no state change, no drive actions — while `unmount` performs no secure-mode
check at all: its behavior is independent of the secure-mode flag. -/
theorem secure_mode_mount_declines (env : MountEnv) (p : FsPath) (s : DCState)
    (h : env.secure_mode = true) :
    mount env p s = (false, s, []) ∧
    ∀ b : Bool, unmount { env with secure_mode := b } p s = unmount env p s := by
  refine ⟨by rw [mount, if_pos h], fun b => rfl⟩

/-- Witness for C7 (amended): instantiated at the secure environment. -/
theorem secure_mode_mount_declines_witness :
    mount envSecure imgA ⟨[imgA], 0, true⟩ = (false, ⟨[imgA], 0, true⟩, []) :=
  (secure_mode_mount_declines envSecure imgA ⟨[imgA], 0, true⟩ rfl).1

/-- Helper: a successful floppy mount performs exactly the floppy drive
actions at its drive letter, with media byte 0xF0. -/
theorem mount_floppy_success_actions (env : MountEnv) (c : Char) (p : FsPath)
    (h : (mount_floppy_image env c p).1 = true) :
    (mount_floppy_image env c p).2 =
      [.appendDisk (letterIndex c), .initDrive (letterIndex c),
        .writeMediaByte (letterIndex c) 0xF0, .setDta] := by
  rw [mount_floppy_image] at h ⊢
  split at h
  · cases h
  · split at h
    · cases h
    · split at h
      · cases h
      · rename_i hsize hfat
        rw [if_neg hsize, if_neg hfat]

/-- Helper: a successful cd mount performs the SDL interface selection and
the cdrom drive actions at its drive letter, with media byte 0xF8. -/
theorem mount_cd_success_actions (env : MountEnv) (c : Char) (p : FsPath)
    (h : (mount_cd_image env c p).1 = true) :
    (mount_cd_image env c p).2 =
      [.setCdInterface, .appendDisk (letterIndex c), .initDrive (letterIndex c),
        .writeMediaByte (letterIndex c) 0xF8] := by
  rw [mount_cd_image] at h ⊢
  split at h
  · rename_i h0
    rw [if_pos h0]
  · cases h

/-- C8: outside secure mode, `disk_control::mount` translates the lower-cased
extension into the drive-letter convention — ".img" is attempted as a floppy
mount whose success decides the result, and on success the drive actions
append a disk at letter index 0 (drive A) with floppy media byte 0xF0;
".iso" and ".cue" are attempted as a cdrom mount, on success appending at
letter index 3 (drive D) with media byte 0xF8; any other extension yields
`false` with no state change and no drive action. -/
theorem mount_extension_dispatch (env : MountEnv) (img : FsPath) (s : DCState)
    (h : env.secure_mode = false) :
    (lower_case img.extension = ".img" →
      (mount env img s).1 = (mount_floppy_image env 'A' img).1 ∧
      ((mount env img s).1 = true →
        DriveAction.appendDisk 0 ∈ (mount env img s).2.2 ∧
        DriveAction.writeMediaByte 0 0xF0 ∈ (mount env img s).2.2)) ∧
    ((lower_case img.extension = ".iso" ∨ lower_case img.extension = ".cue") →
      (mount env img s).1 = (mount_cd_image env 'D' img).1 ∧
      ((mount env img s).1 = true →
        DriveAction.appendDisk 3 ∈ (mount env img s).2.2 ∧
        DriveAction.writeMediaByte 3 0xF8 ∈ (mount env img s).2.2)) ∧
    (lower_case img.extension ≠ ".img" → lower_case img.extension ≠ ".iso" →
      lower_case img.extension ≠ ".cue" → mount env img s = (false, s, [])) := by
  refine ⟨fun himg => ?_, fun hcd => ?_, fun h1 h2 h3 => ?_⟩
  · simp only [mount, h, if_false, Bool.false_eq_true, himg, if_true, if_pos rfl]
    cases hf : (mount_floppy_image env 'A' img).1
    · simp [hf]
    · simp only [hf, if_true]
      refine ⟨by simp, fun _ => ?_⟩
      rw [mount_floppy_success_actions env 'A' img hf]
      constructor <;> simp [letterIndex]
  · have hne : lower_case img.extension ≠ ".img" := by
      rcases hcd with hcd | hcd <;> rw [hcd] <;> decide
    simp only [mount, h, Bool.false_eq_true, if_false, if_neg hne, if_pos hcd]
    cases hf : (mount_cd_image env 'D' img).1
    · simp [hf]
    · simp only [hf, if_true]
      refine ⟨by simp, fun _ => ?_⟩
      rw [mount_cd_success_actions env 'D' img hf]
      constructor <;> simp [letterIndex]
  · have hor : ¬(lower_case img.extension = ".iso" ∨ lower_case img.extension = ".cue") := by
      simp [h2, h3]
    simp only [mount, h, Bool.false_eq_true, if_false, if_neg h1, if_neg hor]

/-- Witness for C8: a ".img" image outside secure mode resolves through the
floppy branch, and its successful mount appends a disk at letter index 0. -/
theorem mount_extension_dispatch_witness :
    (mount envPlain imgA DCState.init).1 = (mount_floppy_image envPlain 'A' imgA).1 ∧
    DriveAction.appendDisk 0 ∈ (mount envPlain imgA DCState.init).2.2 :=
  ⟨((mount_extension_dispatch envPlain imgA DCState.init rfl).1 (by decide)).1,
    (((mount_extension_dispatch envPlain imgA DCState.init rfl).1 (by decide)).2
      (by decide)).1⟩

/-- Helper: the initial registry state satisfies the current-index
invariant. -/
theorem dcInv_init : DCInv DCState.init := by
  constructor <;> intro h <;> simp [DCState.init, get_num_images, get_image_index] at *

/-- Helper: `set_image_index` preserves the current-index invariant. -/
theorem dcInv_set_image_index (i : Nat) (s : DCState) (h : DCInv s) :
    DCInv (set_image_index i s).2 := by
  rw [set_image_index]
  split
  · exact h
  · rename_i hlt
    refine ⟨fun _ => ?_, fun h0 => ?_⟩
    · simpa [get_num_images, get_image_index] using Nat.lt_of_not_le hlt
    · simp only [get_num_images, get_image_index] at h0 hlt ⊢
      omega

/-- Helper: `add_image_index` preserves the current-index invariant. -/
theorem dcInv_add_image_index (s : DCState) (h : DCInv s) :
    DCInv (add_image_index s).2 := by
  obtain ⟨h1, h2⟩ := h
  simp only [DCInv, add_image_index, get_num_images, get_image_index,
    List.length_append, List.length_cons, List.length_nil] at *
  omega

/-- Helper: `set_image_index` with an in-range index establishes the
current-index invariant on any state. -/
theorem dcInv_set_image_index_lt (i : Nat) (s : DCState)
    (hi : i < get_num_images s) : DCInv (set_image_index i s).2 := by
  rw [set_image_index, if_neg (by omega)]
  refine ⟨fun _ => ?_, fun h0 => ?_⟩ <;>
    simp only [get_num_images, get_image_index] at * <;> omega

/-- Helper: `replace_image_index` preserves the current-index invariant. -/
theorem dcInv_replace_image_index (i : Nat) (info : Option FsPath) (s : DCState)
    (h : DCInv s) : DCInv (replace_image_index i info s).2 := by
  cases info with
  | none =>
    rw [replace_image_index]
    split
    · exact h
    · rename_i hlt
      have hi : i < s.images.length := by
        simp only [get_num_images] at hlt
        omega
      have hlen : (s.images.eraseIdx i).length = s.images.length - 1 := by
        rw [List.length_eraseIdx, if_pos hi]
      show DCInv
        (if get_image_index { s with images := s.images.eraseIdx i } ≥
              get_num_images { s with images := s.images.eraseIdx i } ∧
            get_num_images { s with images := s.images.eraseIdx i } > 0 then
          (true,
            (set_image_index (get_num_images { s with images := s.images.eraseIdx i } - 1)
              { s with images := s.images.eraseIdx i }).2)
        else (true, { s with images := s.images.eraseIdx i })).2
      split
      · rename_i hc
        simp only [get_num_images, get_image_index, hlen] at hc
        apply dcInv_set_image_index_lt
        simp only [get_num_images, get_image_index, hlen]
        omega
      · rename_i hc
        obtain ⟨h1, h2⟩ := h
        simp only [DCInv, get_num_images, get_image_index, not_and, not_le,
          gt_iff_lt, not_lt, hlen] at *
        omega
  | some p =>
    rw [replace_image_index]
    split
    · exact h
    · obtain ⟨h1, h2⟩ := h
      simp only [DCInv, get_num_images, get_image_index, List.length_set] at *
      omega

/-- Helper: `disk_control::mount` preserves the current-index invariant. -/
theorem dcInv_mount (env : MountEnv) (p : FsPath) (s : DCState) (h : DCInv s) :
    DCInv (mount env p s).2.1 := by
  rcases mount_state_cases env p s with hc | hc
  · rw [hc]; exact h
  · rw [hc.2.2]
    have h0 : s.current_index = 0 := h.2 hc.2.1
    refine ⟨fun _ => ?_, fun h1 => ?_⟩
    · simp [get_num_images, get_image_index, h0]
    · simp [get_num_images] at h1

/-- Helper: `set_eject_state` preserves the current-index invariant. -/
theorem dcInv_set_eject_state (env : MountEnv) (e : Bool) (s : DCState)
    (r : Bool × DCState × List DriveAction) (h : DCInv s)
    (hr : set_eject_state env e s = some r) : DCInv r.2.1 := by
  have hs1 : DCInv ({ s with is_ejected := e } : DCState) := h
  rw [set_eject_state] at hr
  split at hr
  · rw [Option.some_inj] at hr
    rw [← hr]
    exact hs1
  · split at hr
    · cases hr
    · split at hr
      · rw [Option.some_inj] at hr
        rw [← hr]
        exact hs1
      · rw [Option.some_inj] at hr
        rw [← hr]
        exact dcInv_mount env _ _ hs1

/-- Helper: every disk-control operation preserves the current-index
invariant. -/
theorem dcInv_stepOp (op : DCOp) (s s2 : DCState) (h : DCInv s)
    (hs : stepOp op s = some s2) : DCInv s2 := by
  cases op with
  | add =>
    cases hs
    exact dcInv_add_image_index s h
  | setIndex i =>
    cases hs
    exact dcInv_set_image_index i s h
  | replace i info =>
    cases hs
    exact dcInv_replace_image_index i info s h
  | eject env e =>
    simp only [stepOp, Option.map_eq_some'] at hs
    obtain ⟨r, hr, hr2⟩ := hs
    rw [← hr2]
    exact dcInv_set_eject_state env e s r h hr
  | mountOp env p =>
    cases hs
    exact dcInv_mount env p s h

/-- Helper: running a sequence of operations from an invariant-satisfying
state ends (when no operation crashed) in an invariant-satisfying state. -/
theorem dcInv_runOps (ops : List DCOp) : ∀ s s2 : DCState, DCInv s →
    runOps ops s = some s2 → DCInv s2 := by
  induction ops with
  | nil =>
    intro s s2 h hs
    rw [runOps, Option.some_inj] at hs
    rw [← hs]
    exact h
  | cons op rest ih =>
    intro s s2 h hs
    rw [runOps] at hs
    cases hop : stepOp op s with
    | none => rw [hop] at hs; cases hs
    | some s1 =>
      rw [hop] at hs
      exact ih s1 s2 (dcInv_stepOp op s s1 h hop) hs

/-- C9: starting from the empty registry, every sequence of disk-control
operations maintains the current-index invariant — a non-empty registry keeps
its current index strictly below the image count, and an empty registry keeps
current index 0. -/
theorem disk_control_current_index_invariant (ops : List DCOp) (s : DCState)
    (h : runOps ops DCState.init = some s) : DCInv s :=
  dcInv_runOps ops DCState.init s dcInv_init h

/-- Witness for C9: a mount, an added slot, an index change and a removal,
run from the empty registry, end in a state satisfying the invariant. -/
theorem disk_control_current_index_invariant_witness :
    DCInv (⟨[⟨"", ""⟩], 0, false⟩ : DCState) :=
  disk_control_current_index_invariant
    [.mountOp envPlain imgA, .add, .setIndex 1, .replace 0 none]
    ⟨[⟨"", ""⟩], 0, false⟩ (by decide)

/-- Helper: an association-list lookup yields `none` exactly when the key is
bound nowhere in the list. -/
theorem lookup_none_iff (l : List (String × CoreOptionDefinition)) (k : String) :
    l.lookup k = none ↔ ∀ d, (k, d) ∉ l := by
  induction l with
  | nil => simp
  | cons a t ih =>
    obtain ⟨k2, d2⟩ := a
    by_cases hk : k = k2
    · subst hk
      simp only [List.lookup, beq_self_eq_true]
      constructor
      · intro h
        cases h
      · intro hall
        exact absurd (List.mem_cons_self _ _) (hall d2)
    · have hbeq : (k == k2) = false := beq_eq_false_iff_ne.mpr hk
      simp only [List.lookup, hbeq]
      rw [ih]
      constructor
      · intro hall d hd
        rcases List.mem_cons.mp hd with hd | hd
        · exact hk (congrArg Prod.fst hd)
        · exact hall d hd
      · intro hall d hd
        exact hall d (List.mem_cons_of_mem _ hd)

/-- Helper: an association-list lookup that yields a value found that value
bound to the key in the list. -/
theorem lookup_some_mem (l : List (String × CoreOptionDefinition)) (k : String)
    (d : CoreOptionDefinition) (h : l.lookup k = some d) : (k, d) ∈ l := by
  induction l with
  | nil => cases h
  | cons a t ih =>
    obtain ⟨k2, d2⟩ := a
    by_cases hk : k = k2
    · subst hk
      rw [List.lookup, beq_self_eq_true, Option.some_inj] at h
      rw [h]
      exact List.mem_cons_self _ _
    · rw [List.lookup] at h
      rw [beq_eq_false_iff_ne.mpr hk] at h
      exact List.mem_cons_of_mem _ (ih h)

/-- C10: `CoreOptions::option` returns null exactly when no option with the
given key exists in `options_map_`; a non-null result is the stored
definition bound to that key; and the call leaves the `CoreOptions` object
unchanged. -/
theorem coreoptions_option_spec (co : CoreOptions) (key : String) :
    (co.option key = none ↔ ∀ d, (key, d) ∉ co.options_map_) ∧
    (∀ d, co.option key = some d → (key, d) ∈ co.options_map_) ∧
    (co.optionCall key).2 = co :=
  ⟨lookup_none_iff co.options_map_ key,
    fun d h => lookup_some_mem co.options_map_ key d h, rfl⟩

/-- Witness for C10: on a concrete registry the lookup of a bound key returns
its stored definition, found in the map. -/
theorem coreoptions_option_spec_witness :
    (("dosbox_core_overclock", ⟨"dosbox_core_overclock", "Overclock CPU"⟩) :
        String × CoreOptionDefinition) ∈
      (⟨[("dosbox_core_overclock", ⟨"dosbox_core_overclock", "Overclock CPU"⟩)]⟩ :
        CoreOptions).options_map_ :=
  (coreoptions_option_spec
      ⟨[("dosbox_core_overclock", ⟨"dosbox_core_overclock", "Overclock CPU"⟩)]⟩
      "dosbox_core_overclock").2.1
    ⟨"dosbox_core_overclock", "Overclock CPU"⟩ (by decide)

/-- Helper: flipping a side twice returns to it, and a side never equals its
opposite. -/
theorem side_other_other (a : Side) : a.other.other = a ∧ a.other ≠ a := by
  cases a <;> exact ⟨rfl, by decide⟩

/-- Helper: the owner after an event sequence is decided solely by the parity
of the number of completed handoffs in it. -/
theorem applyEvents_owner (es : List CoordEvent) : ∀ st : SwitchCoordinator,
    (applyEvents es st).owner =
      if numSwitches es % 2 = 0 then st.owner else st.owner.other := by
  induction es with
  | nil => intro st; simp [applyEvents, numSwitches]
  | cons e rest ih =>
    intro st
    cases e with
    | switch =>
      rw [applyEvents, numSwitches, ih (handoff st)]
      have ho : (handoff st).owner = st.owner.other := rfl
      rcases Nat.even_or_odd (numSwitches rest) with hpar | hpar
      · obtain ⟨m, hm⟩ := hpar
        rw [if_pos (by omega), if_neg (by omega), ho]
      · obtain ⟨m, hm⟩ := hpar
        rw [if_neg (by omega), if_pos (by omega), ho, (side_other_other st.owner).1]
    | setSpinlock b =>
      rw [applyEvents, numSwitches, ih (useSpinlockThreadSync b st)]
      rfl

/-- C1: over any sequence of coordinator events, ownership is decided by
handoff parity — so consecutive `switchThread` completions alternate strictly
between host-owns and emulation-owns, a single `owner` value means the two
sides never own execution simultaneously, every handoff flips the owner (none
is skipped), and the wait strategy in effect never changes the ownership
sequence. -/
theorem switchThread_alternation (es : List CoordEvent) (st : SwitchCoordinator)
    (b : Bool) :
    ((applyEvents es st).owner =
      if numSwitches es % 2 = 0 then st.owner else st.owner.other) ∧
    (handoff st).owner = st.owner.other ∧
    st.owner.other ≠ st.owner ∧
    (applyEvents es (useSpinlockThreadSync b st)).owner = (applyEvents es st).owner := by
  refine ⟨applyEvents_owner es st, rfl, (side_other_other st.owner).2, ?_⟩
  rw [applyEvents_owner es, applyEvents_owner es]
  rfl

/-- Helper: a handoff never changes the cancellation token. -/
theorem handoff_canceled (st : SwitchCoordinator) :
    (handoff st).canceled = st.canceled :=
  rfl

/-- Helper: once the cancellation token is set, one emulation-side round of
`switchThread` raises `EmuThreadCanceled` instead of returning. -/
theorem switchRound_canceled (b : Bool) (st : SwitchCoordinator)
    (h : st.canceled = true) : switchRound b st = .error .mk := by
  obtain ⟨o, strat, c⟩ := st
  have hc : c = true := h
  subst hc
  cases b <;> rfl

/-- Helper: a round in which the host sets the cancellation token before
handing back always raises. -/
theorem switchRound_set_cancel (st : SwitchCoordinator) :
    switchRound true st = .error .mk :=
  rfl

/-- Helper: when the host sets the cancellation token at some round of the
schedule, the emulation loop terminates with the cancellation signal. -/
theorem emuLoop_canceled (schedule : List Bool) : ∀ st : SwitchCoordinator,
    true ∈ schedule → emuLoop schedule st = .error .mk := by
  induction schedule with
  | nil =>
    intro st h
    cases h
  | cons b rest ih =>
    intro st h
    by_cases hc : st.canceled = true
    · rw [emuLoop, switchRound_canceled b st hc]
    · cases b
      · have hmem2 : true ∈ rest := by
          rcases List.mem_cons.mp h with h1 | h1
          · cases h1
          · exact h1
        rw [emuLoop]
        cases hr : switchRound false st with
        | error e =>
          cases e
          rfl
        | ok st2 =>
          exact ih st2 hmem2
      · rw [emuLoop, switchRound_set_cancel st]

/-- C2: once the cancellation token is set, the next emulation-side
`switchThread` raises `EmuThreadCanceled` instead of returning normally; the
signal propagates out of the run loop unmodified, and the entry point — whose
only catch is this dedicated signal, so it can neither be delivered twice nor
surface as a generic error — observes it exactly once and exits cleanly. -/
theorem switchThread_cancellation (st : SwitchCoordinator) (b : Bool)
    (rest schedule : List Bool) :
    (st.canceled = true →
      switchRound b st = .error .mk ∧
      emuLoop (b :: rest) st = .error .mk ∧
      emuThreadEntry (b :: rest) st = .cleanExit) ∧
    (true ∈ schedule → emuThreadEntry schedule st = .cleanExit) := by
  constructor
  · intro h
    have h1 := switchRound_canceled b st h
    have h2 : emuLoop (b :: rest) st = .error .mk := by
      rw [emuLoop, h1]
    exact ⟨h1, h2, by rw [emuThreadEntry, h2]⟩
  · intro h
    rw [emuThreadEntry, emuLoop_canceled schedule st h]

/-- Witness for C2: a canceled coordinator raises at the next round, and a
schedule whose second round sets the token ends in a clean exit. -/
theorem switchThread_cancellation_witness :
    switchRound false ⟨.emu, .spin, true⟩ = .error .mk ∧
    emuThreadEntry [false, true, false] ⟨.host, .block, false⟩ = .cleanExit :=
  ⟨((switchThread_cancellation ⟨.emu, .spin, true⟩ false [] []).1 rfl).1,
    (switchThread_cancellation ⟨.host, .block, false⟩ false [] [false, true, false]).2
      (by decide)⟩

end DosboxCore
